import Mathlib

/-!
Verification development for the binrun entity-resolution and
compliance-metrics engine.

Shallow embedding of the algorithmic core of
`scripts/rcrainfo_account_profile/main.py` (search-term normalisation and
the RCRA matching engine) and
`scripts/rcrainfo_account_violations/main.py` (window query builder,
trend/anomaly analyzer and metric assembler).

Python strings are embedded as `String` manipulated through their
character lists; machine floats of the analyzer are embedded as exact
rationals (`ℚ`); nullable SQL/pandas columns are embedded as `Option`;
the DuckDB relations are embedded as Lean lists of structure values.
-/

namespace Binrun

/-! ## Search-term normalisation: domain validation
Embeds `clean_domain` / `is_valid_domain` of
`scripts/rcrainfo_account_profile/main.py`. -/

/-- ASCII lower-casing of one character, mirroring Python `str.lower()`
on the ASCII domain strings this pipeline handles. -/
def asciiLowerChar (c : Char) : Char :=
  if 'A' ≤ c ∧ c ≤ 'Z' then Char.ofNat (c.toNat + 32) else c

/-- ASCII upper-casing of one character, mirroring Python `str.upper()`. -/
def asciiUpperChar (c : Char) : Char :=
  if 'a' ≤ c ∧ c ≤ 'z' then Char.ofNat (c.toNat - 32) else c

/-- `s.lower()` (ASCII fragment). -/
def asciiLower (s : String) : String :=
  String.mk (s.data.map asciiLowerChar)

/-- `s.upper()` (ASCII fragment). -/
def asciiUpper (s : String) : String :=
  String.mk (s.data.map asciiUpperChar)

/-- Python `s.strip()`: drop whitespace from both ends. -/
def pyStrip (s : String) : String :=
  String.mk (((s.data.dropWhile Char.isWhitespace).reverse.dropWhile
    Char.isWhitespace).reverse)

/-- Auxiliary for `pySplit`: split a character list at every occurrence
of the separator (structural recursion, so that concrete runs reduce). -/
def splitOnCharAux (sep : Char) : List Char → List (List Char)
  | [] => [[]]
  | c :: cs =>
    if c == sep then [] :: splitOnCharAux sep cs
    else
      match splitOnCharAux sep cs with
      | [] => [[c]]
      | t :: ts => (c :: t) :: ts

/-- Python `s.split(sep)` for a one-character separator: the empty string
yields `[""]`, and every separator occurrence opens a new piece. -/
def pySplit (sep : Char) (s : String) : List String :=
  (splitOnCharAux sep s.data).map String.mk

/-- Python `p in s` substring test (`List.IsInfix` on the character lists). -/
def containsSub (s p : String) : Bool :=
  decide (p.data <:+: s.data)

/-- The `exclude_patterns` blocklist of `is_valid_domain`, verbatim. -/
def exclude_patterns : List String :=
  ["yelp.com", "cm", ".pdf", ".doc", ".txt", ".html",
   "linkedin.com", "facebook.com", "twitter.com", "instagram.com", "indeed.com",
   "glassdoor.com", "monster.com", "careerbuilder.com",
   "gmail.com", "hotmail.com", "yahoo.com", "outlook.com", "aol.com", "icloud.com",
   "me.com", "msn.com", "live.com", "mail.com", "protonmail.com", "yandex.com",
   "zoho.com"]

/-- `re.search(r'\d+$', domain)`: the string is non-empty and its last
character is a digit. -/
def endsInDigits (s : String) : Bool :=
  match s.data.getLast? with
  | some c => c.isDigit
  | none => false

/-- Character class `[a-z0-9]` of the shape regex. -/
def isLowerAlnum (c : Char) : Bool :=
  decide (('a' ≤ c ∧ c ≤ 'z') ∨ ('0' ≤ c ∧ c ≤ '9'))

/-- Character class `[a-z0-9-.]` of the shape regex (the hyphen and the dot
are literal inside the class). -/
def isMidChar (c : Char) : Bool :=
  isLowerAlnum c || c == '-' || c == '.'

/-- Character class `[a-z]` of the shape regex. -/
def isLowerAlpha (c : Char) : Bool :=
  decide ('a' ≤ c ∧ c ≤ 'z')

/-- The `[a-z]{2,}$` tail of the shape regex: at least two characters, all
lower-case letters, ending the string. -/
def tldOK (l : List Char) : Bool :=
  decide (2 ≤ l.length) && l.all isLowerAlpha

/-- Search for the `\.[a-z]{2,}$` suffix after consuming zero or more
further `[a-z0-9-.]` characters: the backtracking of `[a-z0-9-.]+(\.)` in
the shape regex, as a structural recursion. -/
def dotSearch : List Char → Bool
  | [] => false
  | c :: cs => (c == '.' && tldOK cs) || (isMidChar c && dotSearch cs)

/-- Executable semantics of `re.match(r'^[a-z0-9][a-z0-9-.]+(\.)[a-z]{2,}$', s)`:
one leading `[a-z0-9]` character, a non-empty run of `[a-z0-9-.]`
characters, a literal dot, and a 2+ letter run ending the string. -/
def shapeMatch (s : String) : Bool :=
  match s.data with
  | [] => false
  | c0 :: rest =>
    isLowerAlnum c0 &&
      (match rest with
       | [] => false
       | c1 :: rest2 => isMidChar c1 && dotSearch rest2)

/-- `is_valid_domain(domain)` of `rcrainfo_account_profile/main.py`:
lower-case and strip, then reject on a blocklist substring, a trailing
digit run, or a failed shape check. -/
def is_valid_domain (domain : String) : Bool :=
  let d := pyStrip (asciiLower domain)
  if exclude_patterns.any (fun p => containsSub d p) then false
  else if endsInDigits d then false
  else if !shapeMatch d then false
  else true

/-- Spec-side reading of the blocklist rejection: some blocklisted pattern
occurs as a substring. -/
def SpecBlocklisted (d : String) : Prop :=
  ∃ p ∈ exclude_patterns, p.data <:+: d.data

/-- Spec-side reading of the shape check, as a decomposition: a leading
alphanumeric, a non-empty middle of `[a-z0-9-.]` characters, a dot, and a
2+ letter TLD ending the string. -/
def SpecShape (d : String) : Prop :=
  ∃ c0 mid tld, d.data = c0 :: (mid ++ '.' :: tld) ∧
    isLowerAlnum c0 = true ∧ mid ≠ [] ∧
    (∀ c ∈ mid, isMidChar c = true) ∧
    2 ≤ tld.length ∧ (∀ c ∈ tld, isLowerAlpha c = true)

/-! ## Trend/anomaly analyzer
Embeds the math helpers `slope_pct` and `spike_year` of
`scripts/rcrainfo_account_violations/main.py`. A yearly count series is a
list of (year, count) pairs, the year being the pandas group index and
the count the grouped value (an integer, exactly representable).
`slope_pct` is embedded in exact rational arithmetic — the properties
verified about it are insensitive to double rounding.  `spike_year`
compares a z-score against a threshold its own test data sits on exactly,
so its mean/variance/standard-deviation/z pipeline is embedded in IEEE
binary64 arithmetic (defined below). -/

/-- Python `round` (banker's rounding) to the nearest integer: round half
to even. -/
def round_half_even (q : ℚ) : ℤ :=
  if q - q.floor < 1/2 then q.floor
  else if 1/2 < q - q.floor then q.floor + 1
  else if q.floor % 2 = 0 then q.floor else q.floor + 1

/-- Python `round(q, nd)`: banker's rounding to `nd` decimal places. -/
def round_to (nd : ℕ) (q : ℚ) : ℚ :=
  (round_half_even (q * 10 ^ nd) : ℚ) / 10 ^ nd

/-- Sum of the years of a series (as rationals, after `astype(float)`). -/
def sX (ps : List (ℤ × ℚ)) : ℚ := (ps.map fun p => (p.1 : ℚ)).sum

/-- Sum of the counts of a series. -/
def sY (ps : List (ℤ × ℚ)) : ℚ := (ps.map fun p => p.2).sum

/-- Sum of year·count over a series. -/
def sXY (ps : List (ℤ × ℚ)) : ℚ := (ps.map fun p => (p.1 : ℚ) * p.2).sum

/-- Sum of year² over a series. -/
def sXX (ps : List (ℤ × ℚ)) : ℚ := (ps.map fun p => (p.1 : ℚ) * (p.1 : ℚ)).sum

/-- Scaled covariance `n·Σxy − Σx·Σy` of a series. -/
def covXY (ps : List (ℤ × ℚ)) : ℚ := ps.length * sXY ps - sX ps * sY ps

/-- Scaled variance `n·Σx² − (Σx)²` of the years of a series. -/
def covXX (ps : List (ℤ × ℚ)) : ℚ := ps.length * sXX ps - sX ps * sX ps

/-- The degree-1 coefficient of `np.polyfit(years, values, 1)`: the
ordinary-least-squares slope `(n·Σxy − Σx·Σy) / (n·Σx² − (Σx)²)`. -/
def ols_slope (ps : List (ℤ × ℚ)) : ℚ := covXY ps / covXX ps

/-- `slope_pct(years, values)` of `rcrainfo_account_violations/main.py`:
returns 0 on fewer than two distinct years or a zero count sum; otherwise
the OLS slope normalised by the first count (`1e-9` replacing a zero first
count, Python `or` treating `0.0` as falsy) and rounded to two decimals. -/
def slope_pct (ps : List (ℤ × ℚ)) : ℚ :=
  match ps with
  | [] => 0
  | (_, v0) :: _ =>
    if ((ps.map Prod.fst).dedup.length < 2) ∨ ((ps.map Prod.snd).sum = 0) then 0
    else
      let base := if v0 = 0 then 1 / 1000000000 else v0
      round_to 2 (100 * ols_slope ps / base)

/-! ### Binary64 arithmetic
`spike_year` compares a z-score against the threshold 2, and the spec's
own example series [1,1,1,1,20] sits exactly on that threshold: in exact
arithmetic its maximal z-score is 2, but the program computes in IEEE
binary64 doubles, where it evaluates to (2⁵³−1)/2⁵² < 2.  The threshold
test is therefore embedded in binary64 semantics: a double is represented
by the rational number it denotes, and each operation rounds its exact
rational result to 53 bits of mantissa, ties to even.  Overflow and
subnormal magnitudes never arise for the event counts this pipeline
groups and are not modelled. -/

/-- Fuel-bounded ⌊log₂ n⌋ (the fuel 4096 exceeds the bit length of every
number arising here; recursion stops as soon as `n ≤ 1`). -/
def log2p : ℕ → ℕ → ℕ
  | 0, _ => 0
  | fuel + 1, n => if n ≤ 1 then 0 else 1 + log2p fuel (n / 2)

/-- ⌊log₂ n⌋ for n ≥ 1. -/
def natLog2 (n : ℕ) : ℕ := log2p 4096 n

/-- ⌊log₂ q⌋ for a positive rational: `natLog2` of numerator and
denominator, adjusted by one comparison. -/
def floorLog2Q (q : ℚ) : ℤ :=
  let n := q.num.toNat
  let d := q.den
  let a := natLog2 n
  let b := natLog2 d
  if d * 2 ^ a ≤ n * 2 ^ b then (a : ℤ) - b else ((a : ℤ) - b) - 1

/-- `2 ^ e` as a rational, for an integer exponent. -/
def qpow2 (e : ℤ) : ℚ :=
  if 0 ≤ e then ((2 ^ e.toNat : ℕ) : ℚ) else 1 / ((2 ^ (-e).toNat : ℕ) : ℚ)

/-- Round an exact rational to the nearest IEEE binary64 value, ties to
even: scale into [2⁵², 2⁵³), round the 53-bit mantissa half-to-even,
scale back. -/
def roundF64 (q : ℚ) : ℚ :=
  if q = 0 then 0
  else
    let a := if q < 0 then -q else q
    let e : ℤ := floorLog2Q a - 52
    let m : ℤ := round_half_even (a / qpow2 e)
    (if q < 0 then -1 else 1) * (m : ℚ) * qpow2 e

/-- IEEE binary64 addition: exact sum, correctly rounded. -/
def fAdd (x y : ℚ) : ℚ := roundF64 (x + y)

/-- IEEE binary64 subtraction. -/
def fSub (x y : ℚ) : ℚ := roundF64 (x - y)

/-- IEEE binary64 multiplication. -/
def fMul (x y : ℚ) : ℚ := roundF64 (x * y)

/-- IEEE binary64 division. -/
def fDiv (x y : ℚ) : ℚ := roundF64 (x / y)

/-- Fuel-bounded Newton iteration for the integer square root,
monotonically decreasing from the initial guess and stopping at
⌊√n⌋. -/
def isqrtGo : ℕ → ℕ → ℕ → ℕ
  | 0, _, g => g
  | fuel + 1, n, g =>
    let next := (g + n / g) / 2
    if next < g then isqrtGo fuel n next else g

/-- ⌊√n⌋ (fuel 4096 covers every magnitude arising here). -/
def isqrtN (n : ℕ) : ℕ := if n ≤ 1 then n else isqrtGo 4096 n n

/-- IEEE binary64 square root, correctly rounded: scale so the result
mantissa lies in [2⁵², 2⁵³), take the integer square root
(⌊√(u/v)⌋ = ⌊⌊√(u·v)⌋/v⌋), and decide the final rounding by comparing
the scaled argument against the squared midpoint, ties to even. -/
def fSqrt (x : ℚ) : ℚ :=
  if x ≤ 0 then 0
  else
    let e := floorLog2Q x
    let f : ℤ := (e - e % 2) / 2 - 52
    let t := x / qpow2 (2 * f)
    let k : ℕ := isqrtN (t.num.toNat * t.den) / t.den
    let mid : ℚ := ((k : ℚ) + 1/2) ^ 2
    let m : ℕ :=
      if mid < t then k + 1
      else if t < mid then k
      else if k % 2 = 0 then k else k + 1
    (m : ℚ) * qpow2 f

/-- Float64 summation of a series as numpy/bottleneck perform it for the
short arrays this pipeline groups: sequential left-to-right accumulation
(numpy's pairwise summation coincides with the sequential order below
eight addends, and a yearly series of the default five-year lookback has
at most six entries). -/
def fsum (l : List ℚ) : ℚ :=
  match l with
  | [] => 0
  | x :: xs => xs.foldl fAdd x

/-- `Series.mean()` in binary64: float sum divided by the (exactly
representable) count. -/
def fmean (l : List ℚ) : ℚ := fDiv (fsum l) (l.length : ℚ)

/-- pandas `nanvar` with `ddof=0` in binary64: `avg = sum/count`, then
the float sum of the squared deviations `(avg - values)**2`, divided by
the count. -/
def fvar (l : List ℚ) : ℚ :=
  let mu := fmean l
  fDiv (fsum (l.map (fun v => fMul (fSub mu v) (fSub mu v)))) (l.length : ℚ)

/-- `Series.std(ddof=0)` in binary64: the square root of `nanvar`. -/
def fstd (l : List ℚ) : ℚ := fSqrt (fvar l)

/-- `Series.idxmax()` over a (year, value) series: the first pair carrying
the maximal value (`none` only on the empty list, on which the source
raises). -/
def idxmax : List (ℤ × ℚ) → Option (ℤ × ℚ)
  | [] => none
  | p :: ps => some (ps.foldl (fun best q => if best.2 < q.2 then q else best) p)

/-- The z-score series `z = (values - values.mean()) / values.std(ddof=0)`
of `spike_year`, each entry computed in binary64. -/
def zscores (ps : List (ℤ × ℚ)) : List (ℤ × ℚ) :=
  ps.map (fun p =>
    (p.1, fDiv (fSub p.2 (fmean (ps.map Prod.snd))) (fstd (ps.map Prod.snd))))

/-- `spike_year(years, values)` of `rcrainfo_account_violations/main.py`
in binary64 semantics: no spike when `values.std(ddof=0)` is zero;
otherwise the year of the first maximal z-score, provided that (double)
z-score compares `>= 2`. -/
def spike_year (ps : List (ℤ × ℚ)) : Option ℤ :=
  if fstd (ps.map Prod.snd) = 0 then none
  else
    match idxmax (zscores ps) with
    | none => none
    | some (y, z) => if 2 ≤ z then some y else none

/-! ## Matching engine
Embeds `RCRASearcher` of `scripts/rcrainfo_account_profile/main.py`:
word-pattern construction (`_create_word_pattern`), the per-account
search SQL (`search`), the batch-scoped delete
(`_delete_old_records_for_accounts`) and the batch driver (`run`).
The `account_matched_facilities` relation is embedded as a list of
`MatchedRow`; the `handler_owner_operator` view is embedded as a list of
`Facility` carrying the six fields the match predicate reads (the
remaining columns are copied verbatim into the match row by the SQL and
play no role in any claim).  Account ids are embedded as opaque strings;
the SQL string-interpolation layer itself (quoting of ids) is below this
embedding. -/

/-- One row of the `search_terms` CSV consumed by `RCRASearcher.run`
(missing `email_terms` cells are the empty string). -/
structure SearchTermRow where
  account_id : String
  account_name : String
  name_terms : String
  email_terms : String
deriving DecidableEq, Repr

/-- The fields of one `handler_owner_operator` row read by the match
predicate; each is `NULL`able in SQL. -/
structure Facility where
  handler_name : Option String
  owner_names : Option String
  operator_names : Option String
  contact_email_domain : Option String
  owner_email_domains : Option String
  operator_email_domains : Option String
deriving DecidableEq, Repr

/-- One row of `account_matched_facilities`: the account key columns, the
facility columns, and the six boolean match flags. -/
structure MatchedRow where
  account_id : String
  account_name : String
  facility : Facility
  handler_name_match : Bool
  owner_name_match : Bool
  operator_name_match : Bool
  contact_email_match : Bool
  owner_email_match : Bool
  operator_email_match : Bool
deriving DecidableEq, Repr

/-- The name tokens of `search`/`_create_word_pattern`: split
`name_terms` on `;`, strip, drop empties, upper-case
(`re.escape` makes each token a regex literal, so a token is just its
text). -/
def nameTokens (name_terms : String) : List String :=
  (((pySplit ';' name_terms).map pyStrip).filter (fun t => t ≠ "")).map asciiUpper

/-- The domain tokens of `search`: split `email_terms` on `;`, strip,
drop empties, lower-case. -/
def emailTokens (email_terms : String) : List String :=
  (((pySplit ';' email_terms).map pyStrip).filter (fun t => t ≠ "")).map asciiLower

/-- RE2 word characters `[0-9A-Za-z_]`, for `\b`. -/
def isWordChar (c : Char) : Bool :=
  c.isAlphanum || c == '_'

/-- Whether position `i` of `s` holds a word character (out of range means
no). -/
def wordAt (s : List Char) (i : ℕ) : Bool :=
  match s.get? i with
  | some c => isWordChar c
  | none => false

/-- RE2 `\b` at position `i` of `s`: exactly one side of the position is a
word character (the string edges count as non-word). -/
def boundaryAt (s : List Char) (i : ℕ) : Bool :=
  (if i = 0 then false else wordAt s (i - 1)) != wordAt s i

/-- A word-bounded occurrence of token `t` somewhere in `s`: the semantics
of searching for `\b<escaped token>\b`. -/
def occursWordBounded (t s : List Char) : Bool :=
  (List.range (s.length + 1)).any (fun i =>
    t.isPrefixOf (s.drop i) && boundaryAt s i && boundaryAt s (i + t.length))

/-- Matching the alternation built by `_create_word_pattern` against a
string: `'|'.join` of the word-bounded tokens, parenthesised by `search`
as `'(' + pattern + ')'`.  With zero tokens the pattern is the empty
group `()`, which matches every string — the behaviour claim C1 is
about.  With tokens present, the alternation matches iff some token has a
word-bounded occurrence. -/
def namePatternMatches (tokens : List String) (s : String) : Bool :=
  if tokens.isEmpty then true
  else tokens.any (fun t => occursWordBounded t.data s.data)

/-- `COALESCE(regexp_matches(UPPER(field), '(' || pattern || ')'), false)`:
a `NULL` field gives false, otherwise the pattern is searched in the
upper-cased field. -/
def nameFieldMatch (tokens : List String) (field : Option String) : Bool :=
  match field with
  | none => false
  | some s => namePatternMatches tokens (asciiUpper s)

/-- `COALESCE(LOWER(field) IN ('d1', …), false)`: a `NULL` field gives
false, otherwise exact membership of the lower-cased field in the domain
list. -/
def emailFieldMatch (doms : List String) (field : Option String) : Bool :=
  match field with
  | none => false
  | some s => doms.contains (asciiLower s)

/-- The `handler_name_match` column expression of the `search` SQL. -/
def handlerFlag (st : SearchTermRow) (f : Facility) : Bool :=
  nameFieldMatch (nameTokens st.name_terms) f.handler_name

/-- The `owner_name_match` column expression. -/
def ownerFlag (st : SearchTermRow) (f : Facility) : Bool :=
  nameFieldMatch (nameTokens st.name_terms) f.owner_names

/-- The `operator_name_match` column expression. -/
def operatorFlag (st : SearchTermRow) (f : Facility) : Bool :=
  nameFieldMatch (nameTokens st.name_terms) f.operator_names

/-- The `contact_email_match` column expression (the literal `FALSE` when
the domain list is empty, since `search` emits no email conditions then). -/
def contactEmailFlag (st : SearchTermRow) (f : Facility) : Bool :=
  if (emailTokens st.email_terms).isEmpty then false
  else emailFieldMatch (emailTokens st.email_terms) f.contact_email_domain

/-- The `owner_email_match` column expression. -/
def ownerEmailFlag (st : SearchTermRow) (f : Facility) : Bool :=
  if (emailTokens st.email_terms).isEmpty then false
  else emailFieldMatch (emailTokens st.email_terms) f.owner_email_domains

/-- The `operator_email_match` column expression. -/
def operatorEmailFlag (st : SearchTermRow) (f : Facility) : Bool :=
  if (emailTokens st.email_terms).isEmpty then false
  else emailFieldMatch (emailTokens st.email_terms) f.operator_email_domains

/-- The `WHERE` clause of the `search` SQL: the OR of the three name
conditions and — when the domain list is non-empty — the three email
conditions. -/
def matchCond (st : SearchTermRow) (f : Facility) : Bool :=
  handlerFlag st f || ownerFlag st f || operatorFlag st f ||
    contactEmailFlag st f || ownerEmailFlag st f || operatorEmailFlag st f

/-- The per-facility body of the `search` SQL: the inserted
`account_matched_facilities` row carrying the six flag columns, or `none`
when the `WHERE` clause rejects the facility. -/
def matchRow (st : SearchTermRow) (f : Facility) : Option MatchedRow :=
  if matchCond st f then
    some ⟨st.account_id, st.account_name, f, handlerFlag st f, ownerFlag st f,
      operatorFlag st f, contactEmailFlag st f, ownerEmailFlag st f,
      operatorEmailFlag st f⟩
  else none

/-- The `INSERT INTO account_matched_facilities SELECT … FROM matches` of
one `search` call: the accepted rows, in facility order. -/
def searchInsert (st : SearchTermRow) (facs : List Facility) : List MatchedRow :=
  facs.filterMap (matchRow st)

/-- The per-account summary row built by `search` from the post-insert
table state: the total and the six per-flag counts. -/
structure MatchSummary where
  account_id : String
  account_name : String
  total_matches : ℕ
  handler_name_matches : ℕ
  owner_name_matches : ℕ
  operator_name_matches : ℕ
  contact_email_matches : ℕ
  owner_email_matches : ℕ
  operator_email_matches : ℕ
deriving DecidableEq, Repr

/-- `SELECT COUNT(*) FROM account_matched_facilities WHERE account_id=?
AND account_name=? AND <flag>`. -/
def countWhere (tbl : List MatchedRow) (id nm : String)
    (flag : MatchedRow → Bool) : ℕ :=
  ((tbl.filter (fun r => r.account_id == id && r.account_name == nm)).filter
    flag).length

/-- The summary dict returned by `search`, computed from the table state
after this account's insert. -/
def mkSummary (tbl : List MatchedRow) (st : SearchTermRow) : MatchSummary :=
  { account_id := st.account_id
    account_name := st.account_name
    total_matches := countWhere tbl st.account_id st.account_name (fun _ => true)
    handler_name_matches := countWhere tbl st.account_id st.account_name (·.handler_name_match)
    owner_name_matches := countWhere tbl st.account_id st.account_name (·.owner_name_match)
    operator_name_matches := countWhere tbl st.account_id st.account_name (·.operator_name_match)
    contact_email_matches := countWhere tbl st.account_id st.account_name (·.contact_email_match)
    owner_email_matches := countWhere tbl st.account_id st.account_name (·.owner_email_match)
    operator_email_matches := countWhere tbl st.account_id st.account_name (·.operator_email_match) }

/-- One successful `search` call: insert the accepted rows, then compute
the summary from the new table state. -/
def searchStep (facs : List Facility) (tbl : List MatchedRow)
    (st : SearchTermRow) : List MatchedRow × MatchSummary :=
  let tbl2 := tbl ++ searchInsert st facs
  (tbl2, mkSummary tbl2 st)

/-- The message printed by the `except` clause of `search` before the
error is re-raised: per-account attribution by `account_name`. -/
def errMsg (st : SearchTermRow) (e : String) : String :=
  "Error searching for " ++ st.account_name ++ ": " ++ e

/-- `_delete_old_records_for_accounts`: delete every
`account_matched_facilities` row whose `account_id` is among the batch's
account ids (a no-op for an empty batch, exactly as the `if unique_ids:`
guard). -/
def deleteForBatch (tbl : List MatchedRow) (batch : List SearchTermRow) :
    List MatchedRow :=
  tbl.filter (fun r => !(batch.any (fun st => st.account_id == r.account_id)))

/-- The account loop of `run`.  `errOf` is the error oracle: which
per-account `search` calls raise (the database error the `try` block of
`search` would see; a raising call inserts nothing).  The `except` clause
of `search` prints the attributed message and re-raises, and `run` has no
handler, so the loop stops at the first raising account, returning the
table as it stands and the error instead of the summary list. -/
def runLoop (errOf : SearchTermRow → Option String) (facs : List Facility) :
    List MatchedRow → List SearchTermRow → List MatchSummary →
    List MatchedRow × Except String (List MatchSummary)
  | tbl, [], acc => (tbl, Except.ok acc.reverse)
  | tbl, st :: rest, acc =>
    match errOf st with
    | some e => (tbl, Except.error (errMsg st e))
    | none =>
      let p := searchStep facs tbl st
      runLoop errOf facs p.1 rest (p.2 :: acc)

/-- `RCRASearcher.run`: delete the batch's old rows, then search each
account in order, accumulating the summary rows written to
`search_summary.csv`. -/
def run (errOf : SearchTermRow → Option String) (facs : List Facility)
    (batch : List SearchTermRow) (tbl : List MatchedRow) :
    List MatchedRow × Except String (List MatchSummary) :=
  runLoop errOf facs (deleteForBatch tbl batch) batch []

/-- The error oracle of a run in which no account raises. -/
def noError : SearchTermRow → Option String := fun _ => none

/-- The `account_matched_facilities` rows of one account. -/
def rowsFor (id : String) (tbl : List MatchedRow) : List MatchedRow :=
  tbl.filter (fun r => r.account_id == id)

/-- The rows inserted by a sequence of successful `search` calls (the
table extension of an error-free loop). -/
def insertsOf (facs : List Facility) (sts : List SearchTermRow) :
    List MatchedRow :=
  (sts.map (fun st => searchInsert st facs)).flatten

/-- A search-term row with empty `name_terms` and empty `email_terms`
(claim C1's failing input). -/
def stEmpty : SearchTermRow :=
  ⟨"A1", "Acme", "", ""⟩

/-- A facility whose only populated name field is its handler name
(claim C1's failing input). -/
def facXYZ : Facility :=
  ⟨some "XYZ FACILITY", none, none, none, none, none⟩

/-- A batch account on which the per-account search raises (claim C5's
concrete input). -/
def stBoom : SearchTermRow :=
  ⟨"A1", "Alpha", "ALPHA", ""⟩

/-- A batch account, after the failing one, that would match `facBeta`
(claim C5's concrete input). -/
def stBeta : SearchTermRow :=
  ⟨"A2", "Beta", "BETA", ""⟩

/-- A facility matching `stBeta` by handler name. -/
def facBeta : Facility :=
  ⟨some "BETA WORKS", none, none, none, none, none⟩

/-- An error oracle under which exactly account `A1` raises. -/
def errBoom : SearchTermRow → Option String :=
  fun st => if st.account_id == "A1" then some "boom" else none

/-- A pre-existing matched row of an account outside every batch used in
the concrete statements. -/
def rowB : MatchedRow :=
  ⟨"B", "Beta Corp", facXYZ, true, false, false, false, false, false⟩

/-! ## Window query builder and metric assembler
Embeds `q_viol`, the violation fields of `build_metrics`, and the
contact-level/account-level row generation of
`scripts/rcrainfo_account_violations/main.py`.

A date column holds a `YYYYMMDD` string; `STRPTIME(s, '%Y%m%d')` followed
by `DATE_DIFF('day', d1, d2)` is embedded as the difference of day
ordinals computed by a days-from-civil calendar conversion.  The
`SELECT DISTINCT ON (pk)` de-duplication keeps the first row per primary
key.  The spec's enrichment columns not read by any claim (tier, parent,
owners) are carried by the `account_name` representative only. -/

/-- Numeric value of a digit string (used for `CAST(s AS INT)` and
`SUBSTR(s,1,4)::INT` on the 8-digit date strings). -/
def digitsVal (cs : List Char) : ℕ :=
  cs.foldl (fun acc c => 10 * acc + (c.toNat - 48)) 0

/-- Day ordinal of a proleptic Gregorian date (days-from-civil algorithm,
valid for year ≥ 1): embeds a parsed `STRPTIME` date as a day count so
that `DATE_DIFF('day', a, b)` is the ordinal difference. -/
def rataDie (y m d : ℕ) : ℕ :=
  let y2 := if m ≤ 2 then y - 1 else y
  let era := y2 / 400
  let yoe := y2 % 400
  let mp := (m + 9) % 12
  let doy := (153 * mp + 2) / 5 + d - 1
  let doe := yoe * 365 + yoe / 4 - yoe / 100 + doy
  era * 146097 + doe

/-- Day ordinal of a `YYYYMMDD` date string. -/
def dateOrd (s : String) : ℕ :=
  rataDie (digitsVal (s.data.take 4)) (digitsVal ((s.data.drop 4).take 2))
    (digitsVal (s.data.drop 6))

/-- `DATE_DIFF('day', STRPTIME(fromD,'%Y%m%d'), STRPTIME(toD,'%Y%m%d'))`. -/
def dateDiffDays (fromD toD : String) : ℤ :=
  (dateOrd toD : ℤ) - (dateOrd fromD : ℤ)

/-- `CONCAT_WS('|', …)` building the synthetic primary keys. -/
def concatPk (parts : List String) : String :=
  String.intercalate "|" parts

/-- Lexicographic order on character lists (the `VARCHAR` collation used
by the SQL `BETWEEN`). -/
def listLe : List Char → List Char → Bool
  | [], _ => true
  | _ :: _, [] => false
  | a :: as, b :: bs =>
    if a < b then true
    else if b < a then false
    else listLe as bs

/-- `s BETWEEN lo AND hi` on `VARCHAR` date columns (lexicographic, which
on same-length digit strings is date order); a `NULL` date is not in any
window. -/
def inWindow (d : Option String) (lo hi : String) : Bool :=
  match d with
  | some s => listLe lo.data s.data && listLe s.data hi.data
  | none => false

/-- One `ce_reporting` violation row joined with its
`account_matched_facilities` enrichment (rows with a `NULL` account id
are already excluded by the `WHERE af.account_id IS NOT NULL` join
filter). -/
structure ViolSource where
  handler_id : String
  viol_activity_location : String
  viol_seq : String
  viol_determined_by_agency : String
  determined_date : Option String
  actual_rtc_date : Option String
  viol_short_desc : String
  account_id : String
  account_name : String
  contact_email_address : Option String
deriving DecidableEq, Repr

/-- One row of the violations-in-window view produced by `q_viol`. -/
structure ViolRow where
  viol_pk : String
  viol_date_i : ℤ
  viol_year : ℤ
  viol_short_desc : String
  days_to_resolve : Option ℤ
  account_id : String
  account_name : String
  contact_email : String
deriving DecidableEq, Repr

/-- The row constructor of `q_viol`: window filter on `determined_date`,
synthetic key, integer date and year, the `CASE WHEN actual_rtc_date IS
NOT NULL AND determined_date IS NOT NULL THEN DATE_DIFF('day', rtc,
determined) END` duration, and the `COALESCE(contact_email_address,
'(no email)')` contact. -/
def q_viol_row (win_begin win_end : String) (r : ViolSource) : Option ViolRow :=
  match r.determined_date with
  | none => none
  | some dd =>
    if inWindow (some dd) win_begin win_end then
      some
        { viol_pk := concatPk [r.handler_id, r.viol_activity_location,
            r.viol_seq, r.viol_determined_by_agency]
          viol_date_i := (digitsVal dd.data : ℤ)
          viol_year := (digitsVal (dd.data.take 4) : ℤ)
          viol_short_desc := r.viol_short_desc
          days_to_resolve :=
            match r.actual_rtc_date with
            | some rtc => some (dateDiffDays rtc dd)
            | none => none
          account_id := r.account_id
          account_name := r.account_name
          contact_email :=
            match r.contact_email_address with
            | some e => e
            | none => "(no email)" }
    else none

/-- One row of the evaluations-in-window view produced by `q_eval`
(the fields `build_metrics` reads). -/
structure EvalRow where
  eval_pk : String
  eval_date_i : ℤ
  eval_year : ℤ
  eval_type_desc : String
  found_violation : String
  account_id : String
  account_name : String
  contact_email : String
deriving DecidableEq, Repr

/-- One row of the enforcements-in-window view produced by `q_enf`
(the fields `build_metrics` reads; `penalty_amt` is the
`CAST(NULLIF(final_amount,'') AS DOUBLE)` value). -/
structure EnfRow where
  enf_pk : String
  enf_date_i : ℤ
  enf_year : ℤ
  enf_type_desc : String
  penalty_amt : Option ℚ
  account_id : String
  account_name : String
  contact_email : String
deriving DecidableEq, Repr

/-- One row of the unbounded facilities-breadth view
(`q_facilities_full`). -/
structure FacRow where
  handler_id : String
  account_id : String
  account_name : String
  contact_email : String
deriving DecidableEq, Repr

/-- The slice predicate of `build_metrics`:
`query("contact_email == @email and account_id == @acc")`.  The account
part is string equality.  The contact part compares the row's
`contact_email` — a string that is never null, because the SQL coalesces
missing e-mails to `'(no email)'` — with the `email` argument; when the
account-level pass calls `build_metrics(None, acc)`, pandas evaluates the
elementwise comparison `value == None`, which is `False` for every string
value, so a `none` filter matches no row at all. -/
def matchesKey (email : Option String) (acc : String)
    (rowEmail rowAcc : String) : Bool :=
  (match email with
   | some e => rowEmail == e
   | none => false) && rowAcc == acc

/-- The evaluations slice `e_win`. -/
def sliceEvals (email : Option String) (acc : String) (l : List EvalRow) :
    List EvalRow :=
  l.filter (fun r => matchesKey email acc r.contact_email r.account_id)

/-- The violations slice `v_win`. -/
def sliceViols (email : Option String) (acc : String) (l : List ViolRow) :
    List ViolRow :=
  l.filter (fun r => matchesKey email acc r.contact_email r.account_id)

/-- The enforcements slice `f_win`. -/
def sliceEnfs (email : Option String) (acc : String) (l : List EnfRow) :
    List EnfRow :=
  l.filter (fun r => matchesKey email acc r.contact_email r.account_id)

/-- The facilities-breadth slice. -/
def sliceFacs (email : Option String) (acc : String) (l : List FacRow) :
    List FacRow :=
  l.filter (fun r => matchesKey email acc r.contact_email r.account_id)

/-- `Series.nunique()` over a string key. -/
def nuniqueBy (key : α → String) (l : List α) : ℕ :=
  ((l.map key).dedup).length

/-- `int(col.max()) if not col.empty else None`. -/
def maxIntOpt (l : List ℤ) : Option ℤ :=
  match l with
  | [] => none
  | x :: xs => some (xs.foldl max x)

/-- Python `int()` on a float value: truncation toward zero. -/
def pyTrunc (q : ℚ) : ℤ :=
  if q < 0 then -((-q).floor) else q.floor

/-- `v_win.days_to_resolve.isna().sum()`: the `open_violations` count —
the number of slice rows with a null duration. -/
def openCount (vs : List ViolRow) : ℕ :=
  (vs.filter (fun v => v.days_to_resolve.isNone)).length

/-- `d = v_win.days_to_resolve.dropna(); int(d.mean()) if not d.empty
else None`: the truncated mean over the non-null durations only. -/
def avgDays (vs : List ViolRow) : Option ℤ :=
  let ds : List ℤ := vs.filterMap (·.days_to_resolve)
  if ds.isEmpty then none
  else some (pyTrunc (((ds.map (fun d => (d : ℚ))).sum) / ds.length))

/-- The metric record assembled by `build_metrics` (the identity columns
surfaced by the claims, the count/date/duration metrics, and the
hit rate; the trend/spike/emerging and largest-penalty fields of the
source dict are computed by the separately embedded analyzer primitives
and are not constrained by any claim, so they are not carried here — the
skip decision and every field below are embedded exactly). -/
structure MetricRow where
  contact_email : Option String
  account_id : String
  account_name : String
  facilities : ℕ
  evaluations_5y : ℕ
  evals_with_viol_5y : ℕ
  violations_5y : ℕ
  enforcement_actions_5y : ℕ
  total_penalties_5y : ℚ
  open_violations : ℕ
  last_eval_date : Option ℤ
  last_violation_date : Option ℤ
  last_penalty_date : Option ℤ
  eval_hit_rate : ℚ
  avg_days_to_resolve : Option ℤ
deriving DecidableEq, Repr

/-- `build_metrics(email, acc)`: slice the three windowed views (and the
breadth view) to the key; if all three event slices are empty, return the
empty dict (`none`); otherwise take the identity fields from the first
non-empty slice and compute the metrics. -/
def build_metrics (evals : List EvalRow) (viols : List ViolRow)
    (enfs : List EnfRow) (facs : List FacRow) (email : Option String)
    (acc : String) : Option MetricRow :=
  let e := sliceEvals email acc evals
  let v := sliceViols email acc viols
  let f := sliceEnfs email acc enfs
  match e, v, f with
  | [], [], [] => none
  | _, _, _ =>
    let ident : String × String × String :=
      match e, v, f with
      | r :: _, _, _ => (r.contact_email, r.account_id, r.account_name)
      | [], r :: _, _ => (r.contact_email, r.account_id, r.account_name)
      | [], [], r :: _ => (r.contact_email, r.account_id, r.account_name)
      | [], [], [] => ("", "", "")
    let evals5 := nuniqueBy (·.eval_pk) e
    let hits := nuniqueBy (·.eval_pk) (e.filter (fun r => r.found_violation == "Y"))
    some
      { contact_email := some ident.1
        account_id := ident.2.1
        account_name := ident.2.2
        facilities := nuniqueBy (·.handler_id) (sliceFacs email acc facs)
        evaluations_5y := evals5
        evals_with_viol_5y := hits
        violations_5y := nuniqueBy (·.viol_pk) v
        enforcement_actions_5y := nuniqueBy (·.enf_pk) f
        total_penalties_5y := round_to 2 ((f.filterMap (·.penalty_amt)).sum)
        open_violations := openCount v
        last_eval_date := maxIntOpt (e.map (·.eval_date_i))
        last_violation_date := maxIntOpt (v.map (·.viol_date_i))
        last_penalty_date := maxIntOpt (f.map (·.enf_date_i))
        eval_hit_rate :=
          if evals5 ≠ 0 then round_to 1 (100 * hits / (evals5 : ℚ)) else 0
        avg_days_to_resolve := avgDays v }

/-- Order-preserving de-duplication keeping first occurrences
(`Series.unique()` / `drop_duplicates()`). -/
def dedupFirst [BEq α] (seen : List α) : List α → List α
  | [] => []
  | a :: as =>
    if seen.contains a then dedupFirst seen as
    else a :: dedupFirst (a :: seen) as

/-- `EVALS_WIN.account_id.unique()`: the distinct account ids of the
evaluations-in-window view, in first-appearance order. -/
def account_ids (evals : List EvalRow) : List String :=
  dedupFirst [] (evals.map (·.account_id))

/-- The account-level pass: one `build_metrics(None, acc)` call per
distinct account id, the `contact_email` key dropped from each resulting
dict. -/
def account_rows (evals : List EvalRow) (viols : List ViolRow)
    (enfs : List EnfRow) (facs : List FacRow) : List (Option MetricRow) :=
  (account_ids evals).map (fun acc =>
    (build_metrics evals viols enfs facs none acc).map
      (fun m => { m with contact_email := none }))

/-- A violation-in-window source row with no return-to-compliance date
(claim C7's concrete input). -/
def srcOpen : ViolSource :=
  ⟨"H1", "HQ", "1", "E", some "20230110", none, "recordkeeping", "A1",
    "Acme", some "c@x.com"⟩

/-- A violation source row returned to compliance five days after its
determination date (claim C8's concrete input). -/
def srcNeg : ViolSource :=
  ⟨"H1", "HQ", "2", "E", some "20230110", some "20230115", "permit", "A1",
    "Acme", some "c@x.com"⟩

/-- A concrete evaluation row (claim C2's concrete input). -/
def evalA1 : EvalRow :=
  ⟨"pkE1", 20230101, 2023, "FCI", "Y", "A1", "Acme", "c@x.com"⟩

/-- The violations-in-window row `q_viol` produces from `srcOpen`: a null
duration. -/
def vOpen : ViolRow :=
  ⟨"H1|HQ|1|E", 20230110, 2023, "recordkeeping", none, "A1", "Acme", "c@x.com"⟩

/-- The violations-in-window row `q_viol` produces from `srcNeg`: a
negative duration (returned to compliance after determination). -/
def vNeg : ViolRow :=
  ⟨"H1|HQ|2|E", 20230110, 2023, "permit", some (-5), "A1", "Acme", "c@x.com"⟩

theorem dotSearch_iff (l : List Char) :
    dotSearch l = true ↔ ∃ mid tld, l = mid ++ '.' :: tld ∧
      (∀ c ∈ mid, isMidChar c = true) ∧ 2 ≤ tld.length ∧
      (∀ c ∈ tld, isLowerAlpha c = true) := by
  induction l with
  | nil =>
    constructor
    · intro h; exact absurd h (by simp [dotSearch])
    · rintro ⟨mid, tld, h, -⟩; exact absurd h (by simp)
  | cons c cs ih =>
    constructor
    · intro h
      simp only [dotSearch, Bool.or_eq_true, Bool.and_eq_true] at h
      rcases h with ⟨hc, ht⟩ | ⟨hm, hr⟩
      · have hc' : c = '.' := by simpa using hc
        simp only [tldOK, Bool.and_eq_true, decide_eq_true_eq,
          List.all_eq_true] at ht
        exact ⟨[], cs, by simp [hc'], by simp, ht.1, ht.2⟩
      · obtain ⟨mid, tld, heq, hmid, hlen, htld⟩ := ih.mp hr
        refine ⟨c :: mid, tld, by simp [heq], ?_, hlen, htld⟩
        intro x hx
        rcases List.mem_cons.mp hx with rfl | hx
        · exact hm
        · exact hmid x hx
    · rintro ⟨mid, tld, heq, hmid, hlen, htld⟩
      cases mid with
      | nil =>
        simp only [List.nil_append] at heq
        obtain ⟨rfl, rfl⟩ : c = '.' ∧ cs = tld :=
          ⟨List.head_eq_of_cons_eq heq, List.tail_eq_of_cons_eq heq⟩
        simp only [dotSearch, Bool.or_eq_true, Bool.and_eq_true]
        left
        exact ⟨by simp, by
          simp only [tldOK, Bool.and_eq_true, decide_eq_true_eq, List.all_eq_true]
          exact ⟨hlen, htld⟩⟩
      | cons m ms =>
        simp only [List.cons_append] at heq
        have hcm : c = m := List.head_eq_of_cons_eq heq
        have hcs : cs = ms ++ '.' :: tld := List.tail_eq_of_cons_eq heq
        simp only [dotSearch, Bool.or_eq_true, Bool.and_eq_true]
        right
        refine ⟨hcm ▸ hmid m (by simp), ih.mpr ⟨ms, tld, hcs, ?_, hlen, htld⟩⟩
        intro x hx
        exact hmid x (List.mem_cons_of_mem m hx)

theorem shapeMatch_iff (s : String) : shapeMatch s = true ↔ SpecShape s := by
  unfold shapeMatch SpecShape
  cases hd : s.data with
  | nil => simp
  | cons c0 rest =>
    cases rest with
    | nil =>
      simp only [Bool.and_eq_true]
      constructor
      · rintro ⟨-, h⟩; exact absurd h (by simp)
      · rintro ⟨c0', mid, tld, heq, -⟩
        have := List.tail_eq_of_cons_eq heq
        exact absurd this.symm (by simp)
    | cons c1 rest2 =>
      simp only [Bool.and_eq_true]
      constructor
      · rintro ⟨h0, h1, h2⟩
        obtain ⟨mid, tld, heq, hmid, hlen, htld⟩ := (dotSearch_iff rest2).mp h2
        refine ⟨c0, c1 :: mid, tld, by simp [heq], h0, by simp, ?_, hlen, htld⟩
        intro x hx
        rcases List.mem_cons.mp hx with rfl | hx
        · exact h1
        · exact hmid x hx
      · rintro ⟨c0', mid, tld, heq, h0, hne, hmid, hlen, htld⟩
        have hc0 : c0 = c0' := List.head_eq_of_cons_eq heq
        have hrest : c1 :: rest2 = mid ++ '.' :: tld := List.tail_eq_of_cons_eq heq
        cases mid with
        | nil => exact absurd rfl hne
        | cons m ms =>
          simp only [List.cons_append] at hrest
          have hc1 : c1 = m := List.head_eq_of_cons_eq hrest
          have hr2 : rest2 = ms ++ '.' :: tld := List.tail_eq_of_cons_eq hrest
          refine ⟨hc0 ▸ h0, hc1 ▸ hmid m (by simp), ?_⟩
          refine (dotSearch_iff rest2).mpr ⟨ms, tld, hr2, ?_, hlen, htld⟩
          intro x hx
          exact hmid x (List.mem_cons_of_mem m hx)

/-- Claim C6 (counterexample): the spec example `is_valid_domain("acme-co.com") → true`
fails on the code: the blocklist entry `"cm"` occurs as a substring of
`"acme"`, so the domain is rejected. -/
theorem acme_co_rejected : is_valid_domain "acme-co.com" = false := by decide

/-- Claim C6 (amended): `is_valid_domain` returns false for
`"facebook.com"`, false for `"acme123.com"`, and also false for
`"acme-co.com"` (the blocklisted substring `"cm"` occurs inside
`"acme"`); in general, after lower-casing and stripping, a candidate is
rejected exactly when it contains a blocklisted substring, ends in a run
of digits, or fails the shape check, where the shape check requires a
leading alphanumeric followed by a non-empty `[a-z0-9-.]` middle, a dot,
and a 2+ letter TLD ending the string. -/
theorem domain_validation_characterization :
    is_valid_domain "facebook.com" = false ∧
    is_valid_domain "acme123.com" = false ∧
    is_valid_domain "acme-co.com" = false ∧
    ∀ d : String,
      is_valid_domain d = false ↔
        (SpecBlocklisted (pyStrip (asciiLower d)) ∨
         endsInDigits (pyStrip (asciiLower d)) = true ∨
         ¬ SpecShape (pyStrip (asciiLower d))) := by
  refine ⟨by decide, by decide, by decide, ?_⟩
  intro d
  unfold is_valid_domain
  constructor
  · intro h
    by_cases hA : exclude_patterns.any (fun p => containsSub (pyStrip (asciiLower d)) p) = true
    · left
      obtain ⟨p, hp, hc⟩ := List.any_eq_true.mp hA
      exact ⟨p, hp, of_decide_eq_true hc⟩
    · by_cases hB : endsInDigits (pyStrip (asciiLower d)) = true
      · right; left; exact hB
      · right; right
        intro hs
        rw [if_neg hA, if_neg hB, (shapeMatch_iff _).mpr hs] at h
        simp at h
  · rintro (⟨p, hp, hinf⟩ | hB | hC)
    · rw [if_pos (List.any_eq_true.mpr ⟨p, hp, decide_eq_true hinf⟩)]
    · by_cases hA : exclude_patterns.any (fun p => containsSub (pyStrip (asciiLower d)) p) = true
      · rw [if_pos hA]
      · rw [if_neg hA, if_pos hB]
    · by_cases hA : exclude_patterns.any (fun p => containsSub (pyStrip (asciiLower d)) p) = true
      · rw [if_pos hA]
      · by_cases hB : endsInDigits (pyStrip (asciiLower d)) = true
        · rw [if_neg hA, if_pos hB]
        · have hsm : shapeMatch (pyStrip (asciiLower d)) = false :=
            Bool.eq_false_iff.mpr (fun h => hC ((shapeMatch_iff _).mp h))
          rw [if_neg hA, if_neg hB, hsm]
          simp

theorem matchRow_account_id (st : SearchTermRow) (f : Facility) (r : MatchedRow)
    (h : matchRow st f = some r) : r.account_id = st.account_id := by
  unfold matchRow at h
  split at h
  · cases h
    rfl
  · cases h

theorem searchInsert_account_id (st : SearchTermRow) (facs : List Facility) :
    ∀ r ∈ searchInsert st facs, r.account_id = st.account_id := by
  intro r hr
  obtain ⟨f, _, hmr⟩ := List.mem_filterMap.mp hr
  exact matchRow_account_id st f r hmr

theorem rowsFor_append (id : String) (t u : List MatchedRow) :
    rowsFor id (t ++ u) = rowsFor id t ++ rowsFor id u :=
  List.filter_append _ _

theorem rowsFor_searchInsert_ne (st : SearchTermRow) (facs : List Facility)
    (id : String) (h : st.account_id ≠ id) :
    rowsFor id (searchInsert st facs) = [] := by
  rw [rowsFor, List.filter_eq_nil_iff]
  intro r hr
  rw [searchInsert_account_id st facs r hr]
  simp [h]

theorem runLoop_rowsFor (errOf : SearchTermRow → Option String)
    (facs : List Facility) (id : String) :
    ∀ (sts : List SearchTermRow) (tbl : List MatchedRow)
      (acc : List MatchSummary), (∀ st ∈ sts, st.account_id ≠ id) →
      rowsFor id (runLoop errOf facs tbl sts acc).1 = rowsFor id tbl := by
  intro sts
  induction sts with
  | nil => intro tbl acc _; rfl
  | cons st rest ih =>
    intro tbl acc h
    unfold runLoop
    cases herr : errOf st with
    | some e => rfl
    | none =>
      simp only
      rw [ih _ _ (fun s hs => h s (List.mem_cons_of_mem _ hs))]
      show rowsFor id (tbl ++ searchInsert st facs) = rowsFor id tbl
      rw [rowsFor_append,
        rowsFor_searchInsert_ne st facs id (h st (List.mem_cons_self _ _)),
        List.append_nil]

theorem deleteForBatch_rowsFor (tbl : List MatchedRow)
    (batch : List SearchTermRow) (id : String)
    (h : ∀ st ∈ batch, st.account_id ≠ id) :
    rowsFor id (deleteForBatch tbl batch) = rowsFor id tbl := by
  unfold rowsFor deleteForBatch
  rw [List.filter_filter]
  apply List.filter_congr
  intro r _
  by_cases hid : r.account_id = id
  · subst hid
    have hany : batch.any (fun st => st.account_id == r.account_id) = false := by
      rw [List.any_eq_false]
      intro st hst
      simpa using h st hst
    simp [hany]
  · simp [hid]

/-- Claim C3: the Matching Engine touches only the batch's accounts — for
every account id absent from the batch, its `account_matched_facilities`
rows after a run (whether the run completes or aborts on an error) are
exactly its rows before the run. -/
theorem scoped_replacement (errOf : SearchTermRow → Option String)
    (facs : List Facility) (batch : List SearchTermRow)
    (tbl : List MatchedRow) (id : String)
    (h : ∀ st ∈ batch, st.account_id ≠ id) :
    rowsFor id (run errOf facs batch tbl).1 = rowsFor id tbl := by
  unfold run
  rw [runLoop_rowsFor errOf facs id batch _ [] h,
    deleteForBatch_rowsFor tbl batch id h]

/-- Witness for `scoped_replacement`: a batch containing only account A1,
run over a table holding a row of account B, leaves B's rows untouched. -/
theorem scoped_replacement_witness :
    rowsFor "B" (run noError [facXYZ] [stEmpty] [rowB]).1 = rowsFor "B" [rowB] :=
  scoped_replacement noError [facXYZ] [stEmpty] [rowB] "B" (by decide)

theorem runLoop_table_ext (errOf : SearchTermRow → Option String)
    (facs : List Facility) :
    ∀ (sts : List SearchTermRow) (tbl : List MatchedRow)
      (acc : List MatchSummary),
      ∃ ext, (runLoop errOf facs tbl sts acc).1 = tbl ++ ext ∧
        ∀ r ∈ ext, ∃ st ∈ sts, r.account_id = st.account_id := by
  intro sts
  induction sts with
  | nil => intro tbl acc; exact ⟨[], by simp [runLoop], by simp⟩
  | cons st rest ih =>
    intro tbl acc
    unfold runLoop
    cases herr : errOf st with
    | some e => exact ⟨[], by simp, by simp⟩
    | none =>
      simp only [searchStep]
      obtain ⟨ext, hext, hids⟩ :=
        ih (tbl ++ searchInsert st facs)
          (mkSummary (tbl ++ searchInsert st facs) st :: acc)
      refine ⟨searchInsert st facs ++ ext, ?_, ?_⟩
      · rw [hext, List.append_assoc]
      · intro r hr
        rcases List.mem_append.mp hr with hr | hr
        · exact ⟨st, List.mem_cons_self _ _, searchInsert_account_id st facs r hr⟩
        · obtain ⟨st2, hst2, hid2⟩ := hids r hr
          exact ⟨st2, List.mem_cons_of_mem _ hst2, hid2⟩

theorem deleteForBatch_append (t u : List MatchedRow)
    (batch : List SearchTermRow) :
    deleteForBatch (t ++ u) batch = deleteForBatch t batch ++ deleteForBatch u batch :=
  List.filter_append _ _

theorem deleteForBatch_idem (t : List MatchedRow) (batch : List SearchTermRow) :
    deleteForBatch (deleteForBatch t batch) batch = deleteForBatch t batch := by
  unfold deleteForBatch
  rw [List.filter_filter]
  apply List.filter_congr
  intro r _
  exact Bool.and_self _

theorem deleteForBatch_covered (u : List MatchedRow) (batch : List SearchTermRow)
    (h : ∀ r ∈ u, ∃ st ∈ batch, r.account_id = st.account_id) :
    deleteForBatch u batch = [] := by
  rw [deleteForBatch, List.filter_eq_nil_iff]
  intro r hr
  obtain ⟨st, hst, hid⟩ := h r hr
  have : batch.any (fun s => s.account_id == r.account_id) = true :=
    List.any_eq_true.mpr ⟨st, hst, by simp [hid]⟩
  simp [this]

/-- Claim C4: the Matching Engine is idempotent — re-running the same
batch over the same facility data, starting from the table the first run
produced, yields the same table and the same per-account summary counts
(total and the six per-flag counts) as the first run. -/
theorem matching_idempotent (errOf : SearchTermRow → Option String)
    (facs : List Facility) (batch : List SearchTermRow)
    (tbl : List MatchedRow) :
    run errOf facs batch (run errOf facs batch tbl).1 = run errOf facs batch tbl := by
  unfold run
  obtain ⟨ext, hext, hids⟩ :=
    runLoop_table_ext errOf facs batch (deleteForBatch tbl batch) []
  have hdel : deleteForBatch
      (runLoop errOf facs (deleteForBatch tbl batch) batch []).1 batch =
      deleteForBatch tbl batch := by
    rw [hext, deleteForBatch_append, deleteForBatch_idem,
      deleteForBatch_covered ext batch hids, List.append_nil]
  rw [hdel]

/-- Claim C1 (code evaluation): an account whose `name_terms` and
`email_terms` are both empty produces the empty alternation, which
`search` embeds as the regex `()` — and `()` matches every string, so
every facility with a non-null handler name is accepted and inserted
(with its handler-name flag set), instead of no facility at all.
Concretely, the empty-terms account `stEmpty` inserts a row for `facXYZ`. -/
theorem empty_terms_insert_all :
    (∀ (st : SearchTermRow) (f : Facility) (s : String),
      nameTokens st.name_terms = [] → emailTokens st.email_terms = [] →
      f.handler_name = some s →
      ∃ r, matchRow st f = some r ∧ r.handler_name_match = true) ∧
    searchInsert stEmpty [facXYZ] =
      [⟨"A1", "Acme", facXYZ, true, false, false, false, false, false⟩] := by
  constructor
  · intro st f s hnt het hh
    have hflag : handlerFlag st f = true := by
      unfold handlerFlag
      rw [hnt, hh]
      simp [nameFieldMatch, namePatternMatches]
    have hcond : matchCond st f = true := by
      unfold matchCond
      rw [hflag]
      simp
    refine ⟨⟨st.account_id, st.account_name, f, handlerFlag st f, ownerFlag st f,
      operatorFlag st f, contactEmailFlag st f, ownerEmailFlag st f,
      operatorEmailFlag st f⟩, ?_, hflag⟩
    unfold matchRow
    rw [if_pos hcond]
  · decide

/-- Witness for `empty_terms_insert_all`: the general clause evaluated at
the concrete empty-terms account and facility. -/
theorem empty_terms_insert_all_witness :
    ∃ r, matchRow stEmpty facXYZ = some r ∧ r.handler_name_match = true :=
  empty_terms_insert_all.1 stEmpty facXYZ "XYZ FACILITY" (by decide) (by decide) rfl

theorem runLoop_error_prefix (errOf : SearchTermRow → Option String)
    (facs : List Facility) (st : SearchTermRow) (e : String)
    (rest : List SearchTermRow) (hst : errOf st = some e) :
    ∀ (pre : List SearchTermRow) (tbl : List MatchedRow)
      (acc : List MatchSummary), (∀ s ∈ pre, errOf s = none) →
      runLoop errOf facs tbl (pre ++ st :: rest) acc =
        (tbl ++ insertsOf facs pre, Except.error (errMsg st e)) := by
  intro pre
  induction pre with
  | nil =>
    intro tbl acc _
    simp [runLoop, hst, insertsOf]
  | cons s pre2 ih =>
    intro tbl acc h
    have hs : errOf s = none := h s (List.mem_cons_self _ _)
    simp only [List.cons_append, runLoop, hs, searchStep, List.append_eq]
    rw [ih _ _ (fun x hx => h x (List.mem_cons_of_mem _ hx))]
    simp [insertsOf, List.append_assoc]

/-- Claim C5 (counterexample): in the batch [stBoom, stBeta] where the
search for stBoom raises, the run terminates with the attributed error
and an empty table — although stBeta matches `facBeta`, its search never
runs and no summary at all is produced: a single account's failure aborts
the whole batch run instead of matching continuing. -/
theorem per_account_failure_aborts :
    searchInsert stBeta [facBeta] ≠ [] ∧
    run errBoom [facBeta] [stBoom, stBeta] [] =
      ([], Except.error "Error searching for Alpha: boom") :=
  ⟨by decide, by rfl⟩

/-- Claim C5 (amended): when the per-account search raises for an account,
the error is caught and reported attributed to that account's name
(`errMsg`), and then re-raised: the batch run aborts with that error, the
table keeps only the insertions of the accounts before the failing one,
and the accounts after it are never searched (fail-fast per batch, as
§7 of the spec states). -/
theorem per_account_failure_reported_then_reraised
    (errOf : SearchTermRow → Option String) (facs : List Facility)
    (pre rest : List SearchTermRow) (st : SearchTermRow) (e : String)
    (tbl : List MatchedRow) (hpre : ∀ s ∈ pre, errOf s = none)
    (hst : errOf st = some e) :
    run errOf facs (pre ++ st :: rest) tbl =
      (deleteForBatch tbl (pre ++ st :: rest) ++ insertsOf facs pre,
       Except.error (errMsg st e)) := by
  unfold run
  exact runLoop_error_prefix errOf facs st e rest hst pre _ [] hpre

/-- Witness for `per_account_failure_reported_then_reraised`: the failing
account placed first, one further account after it. -/
theorem per_account_failure_reported_then_reraised_witness :
    run errBoom [facBeta] ([] ++ stBoom :: [stBeta]) [] =
      (deleteForBatch [] ([] ++ stBoom :: [stBeta]) ++ insertsOf [facBeta] [],
       Except.error (errMsg stBoom "boom")) :=
  per_account_failure_reported_then_reraised errBoom [facBeta] [] [stBeta]
    stBoom "boom" [] (by simp) (by decide)

section RatEval

attribute [local semireducible] Rat.mul Rat.add Rat.sub Rat.inv Rat.ofScientific

theorem cross_sum (a : ℤ × ℚ) (l : List (ℤ × ℚ)) :
    (l.map (fun b => ((a.1 : ℚ) - b.1) * (a.2 - b.2))).sum =
      l.length * ((a.1 : ℚ) * a.2) - (a.1 : ℚ) * sY l - a.2 * sX l + sXY l := by
  induction l with
  | nil => simp [sX, sY, sXY]
  | cons b bs ih =>
    simp only [List.map_cons, List.sum_cons, List.length_cons, sX, sY, sXY] at ih ⊢
    rw [ih]
    push_cast
    ring

theorem covXY_cons (a : ℤ × ℚ) (l : List (ℤ × ℚ)) :
    covXY (a :: l) = covXY l +
      (l.map (fun b => ((a.1 : ℚ) - b.1) * (a.2 - b.2))).sum := by
  rw [cross_sum]
  simp only [covXY, sX, sY, sXY, List.map_cons, List.sum_cons, List.length_cons]
  push_cast
  ring

theorem covXY_nonneg (ps : List (ℤ × ℚ))
    (h : ps.Pairwise (fun p q => p.1 < q.1 ∧ p.2 < q.2)) : 0 ≤ covXY ps := by
  induction ps with
  | nil => simp [covXY, sX, sY, sXY]
  | cons a l ih =>
    obtain ⟨ha, hl⟩ := List.pairwise_cons.mp h
    rw [covXY_cons]
    have hsum : 0 ≤ (l.map (fun b => ((a.1 : ℚ) - b.1) * (a.2 - b.2))).sum := by
      apply List.sum_nonneg
      intro x hx
      obtain ⟨b, hb, rfl⟩ := List.mem_map.mp hx
      have h1 : ((a.1 : ℚ) - b.1) < 0 := by
        have := (ha b hb).1
        exact sub_neg.mpr (by exact_mod_cast this)
      have h2 : (a.2 - b.2) < 0 := sub_neg.mpr (ha b hb).2
      exact le_of_lt (mul_pos_of_neg_of_neg h1 h2)
    linarith [ih hl]

theorem covXY_pos (ps : List (ℤ × ℚ))
    (h : ps.Pairwise (fun p q => p.1 < q.1 ∧ p.2 < q.2)) (hlen : 2 ≤ ps.length) :
    0 < covXY ps := by
  match ps, hlen with
  | a :: b :: l, _ =>
    obtain ⟨ha, hl⟩ := List.pairwise_cons.mp h
    rw [covXY_cons]
    have hsum : 0 < ((b :: l).map (fun c => ((a.1 : ℚ) - c.1) * (a.2 - c.2))).sum := by
      apply List.sum_pos
      · intro x hx
        obtain ⟨c, hc, rfl⟩ := List.mem_map.mp hx
        have h1 : ((a.1 : ℚ) - c.1) < 0 := by
          have := (ha c hc).1
          exact sub_neg.mpr (by exact_mod_cast this)
        have h2 : (a.2 - c.2) < 0 := sub_neg.mpr (ha c hc).2
        exact mul_pos_of_neg_of_neg h1 h2
      · simp
    linarith [covXY_nonneg (b :: l) hl]

theorem covXX_eq (ps : List (ℤ × ℚ)) :
    covXX ps = covXY (ps.map (fun p => (p.1, (p.1 : ℚ)))) := by
  simp only [covXX, covXY, sX, sY, sXY, sXX, List.map_map, List.length_map]
  rfl

theorem covXX_pos (ps : List (ℤ × ℚ))
    (h : ps.Pairwise (fun p q => p.1 < q.1)) (hlen : 2 ≤ ps.length) :
    0 < covXX ps := by
  rw [covXX_eq]
  apply covXY_pos
  · rw [List.pairwise_map]
    refine h.imp ?_
    intro p q hpq
    refine ⟨hpq, ?_⟩
    show ((p.1 : ℚ)) < ((q.1 : ℚ))
    exact_mod_cast hpq
  · simpa using hlen

theorem covXY_const (ps : List (ℤ × ℚ)) (c : ℚ) (h : ∀ p ∈ ps, p.2 = c) :
    covXY ps = 0 := by
  induction ps with
  | nil => simp [covXY, sX, sY, sXY]
  | cons a l ih =>
    rw [covXY_cons, ih (fun p hp => h p (List.mem_cons_of_mem a hp))]
    have : ∀ x ∈ l.map (fun b => ((a.1 : ℚ) - b.1) * (a.2 - b.2)), x = 0 := by
      intro x hx
      obtain ⟨b, hb, rfl⟩ := List.mem_map.mp hx
      rw [h a (List.mem_cons_self _ _), h b (List.mem_cons_of_mem a hb)]
      ring
    rw [List.sum_eq_zero this]
    ring

theorem round_half_even_nonneg (q : ℚ) (hq : 0 ≤ q) : 0 ≤ round_half_even q := by
  unfold round_half_even
  have hf : 0 ≤ q.floor := Rat.le_floor.mpr (by exact_mod_cast hq)
  split_ifs <;> omega

theorem round_to_nonneg (nd : ℕ) (q : ℚ) (hq : 0 ≤ q) : 0 ≤ round_to nd q := by
  unfold round_to
  apply div_nonneg
  · exact_mod_cast round_half_even_nonneg _ (by positivity)
  · positivity

theorem sum_pos_of_mem {l : List ℚ} (h0 : ∀ x ∈ l, 0 ≤ x) {x : ℚ}
    (hx : x ∈ l) (hpos : 0 < x) : 0 < l.sum := by
  induction l with
  | nil => cases hx
  | cons a as ih =>
    rw [List.sum_cons]
    rcases List.mem_cons.mp hx with rfl | hx
    · have : 0 ≤ as.sum := List.sum_nonneg (fun y hy => h0 y (List.mem_cons_of_mem _ hy))
      linarith
    · have ha : 0 ≤ a := h0 a (List.mem_cons_self _ _)
      have := ih (fun y hy => h0 y (List.mem_cons_of_mem _ hy)) hx
      linarith

theorem two_le_dedup_length {l : List ℤ} {a b : ℤ} (ha : a ∈ l) (hb : b ∈ l)
    (hab : a ≠ b) : 2 ≤ l.dedup.length := by
  have hsub : ({a, b} : Finset ℤ) ⊆ l.dedup.toFinset := by
    intro x hx
    rcases Finset.mem_insert.mp hx with rfl | hx
    · exact List.mem_toFinset.mpr (List.mem_dedup.mpr ha)
    · rw [Finset.mem_singleton] at hx
      subst hx
      exact List.mem_toFinset.mpr (List.mem_dedup.mpr hb)
  have hcard : ({a, b} : Finset ℤ).card = 2 := by
    rw [Finset.card_insert_of_not_mem (by simpa using hab), Finset.card_singleton]
  calc 2 = ({a, b} : Finset ℤ).card := hcard.symm
    _ ≤ l.dedup.toFinset.card := Finset.card_le_card hsub
    _ ≤ l.dedup.length := l.dedup.toFinset_card_le

/-- Claim C10 (counterexample): the strictly increasing series
2019 ↦ 100000, …, 2023 ↦ 100004 has OLS slope exactly 1, normalised slope
100/100000 = 0.001, which `round(·, 2)` flushes to 0.0 — so a strictly
increasing yearly count series need not yield `slope_pct > 0`. -/
theorem slope_pct_small_slope_rounds_to_zero :
    slope_pct [(2019, 100000), (2020, 100001), (2021, 100002),
      (2022, 100003), (2023, 100004)] = 0 ∧
    ¬ (0 < slope_pct [(2019, 100000), (2020, 100001), (2021, 100002),
      (2022, 100003), (2023, 100004)]) :=
  ⟨by decide, by decide⟩

/-- Claim C10 (amended): `slope_pct` returns 0 when fewer than two
distinct years are present, and 0 on every constant series (in particular
the all-zero series and every constant non-zero series); on a strictly
increasing nonnegative series of length ≥ 2 the OLS slope (and hence the
normalised slope before rounding) is strictly positive and `slope_pct`
— the value after rounding half-to-even to two decimals — is nonnegative. -/
theorem slope_pct_spec :
    (∀ ps : List (ℤ × ℚ), (ps.map Prod.fst).dedup.length < 2 → slope_pct ps = 0) ∧
    (∀ (ps : List (ℤ × ℚ)) (c : ℚ), (∀ p ∈ ps, p.2 = c) → slope_pct ps = 0) ∧
    (∀ ps : List (ℤ × ℚ), ps.Pairwise (fun p q => p.1 < q.1 ∧ p.2 < q.2) →
      (∀ p ∈ ps, 0 ≤ p.2) → 2 ≤ ps.length →
      0 < ols_slope ps ∧ 0 ≤ slope_pct ps) := by
  refine ⟨?_, ?_, ?_⟩
  · intro ps h
    match ps with
    | [] => rfl
    | (y0, v0) :: tl =>
      simp only [slope_pct]
      rw [if_pos (Or.inl h)]
  · intro ps c h
    match ps with
    | [] => rfl
    | (y0, v0) :: tl =>
      simp only [slope_pct]
      by_cases hcond : ((((y0, v0) :: tl).map Prod.fst).dedup.length < 2) ∨
        ((((y0, v0) :: tl).map Prod.snd).sum = 0)
      · rw [if_pos hcond]
      · rw [if_neg hcond]
        have hc0 : covXY ((y0, v0) :: tl) = 0 := covXY_const _ c h
        simp only [ols_slope, hc0, zero_div, mul_zero, zero_div]
        have : round_to 2 0 = 0 := by decide
        simpa using this
  · intro ps hmono hnn hlen
    match ps, hlen with
    | (y0, v0) :: (y1, v1) :: tl, _ =>
      have hpair := (List.pairwise_cons.mp hmono).1 (y1, v1) (List.mem_cons_self _ _)
      have hslope : 0 < ols_slope ((y0, v0) :: (y1, v1) :: tl) := by
        apply div_pos
        · exact covXY_pos _ hmono (by simp)
        · refine covXX_pos _ ?_ (by simp)
          exact hmono.imp (fun h => h.1)
      refine ⟨hslope, ?_⟩
      simp only [slope_pct]
      by_cases hcond : (((((y0, v0) :: (y1, v1) :: tl)).map Prod.fst).dedup.length < 2) ∨
        (((((y0, v0) :: (y1, v1) :: tl)).map Prod.snd).sum = 0)
      · rw [if_pos hcond]
      · rw [if_neg hcond]
        have hv0 : 0 ≤ v0 := hnn (y0, v0) (List.mem_cons_self _ _)
        have hbase : 0 < (if v0 = 0 then (1 : ℚ) / 1000000000 else v0) := by
          split
          · norm_num
          · rcases lt_or_eq_of_le hv0 with h | h
            · exact h
            · exact absurd h.symm (by assumption)
        apply round_to_nonneg
        positivity

theorem foldl_max_choice (l : List (ℤ × ℚ)) (a : ℤ × ℚ) :
    l.foldl (fun best q => if best.2 < q.2 then q else best) a = a ∨
    l.foldl (fun best q => if best.2 < q.2 then q else best) a ∈ l := by
  induction l generalizing a with
  | nil => left; rfl
  | cons b bs ih =>
    simp only [List.foldl_cons]
    rcases ih (if a.2 < b.2 then b else a) with h | h
    · rw [h]
      by_cases hab : a.2 < b.2
      · rw [if_pos hab]
        right
        exact List.mem_cons_self _ _
      · rw [if_neg hab]
        left
        rfl
    · right
      exact List.mem_cons_of_mem b h

theorem foldl_max_ge (l : List (ℤ × ℚ)) (a : ℤ × ℚ) :
    a.2 ≤ (l.foldl (fun best q => if best.2 < q.2 then q else best) a).2 ∧
    ∀ p ∈ l, p.2 ≤ (l.foldl (fun best q => if best.2 < q.2 then q else best) a).2 := by
  induction l generalizing a with
  | nil => exact ⟨le_refl _, by simp⟩
  | cons b bs ih =>
    simp only [List.foldl_cons]
    obtain ⟨h1, h2⟩ := ih (if a.2 < b.2 then b else a)
    have hacc : a.2 ≤ (if a.2 < b.2 then b else a).2 ∧
        b.2 ≤ (if a.2 < b.2 then b else a).2 := by
      by_cases hab : a.2 < b.2
      · rw [if_pos hab]
        exact ⟨le_of_lt hab, le_refl _⟩
      · rw [if_neg hab]
        exact ⟨le_refl _, le_of_not_lt hab⟩
    refine ⟨le_trans hacc.1 h1, ?_⟩
    intro p hp
    rcases List.mem_cons.mp hp with rfl | hp
    · exact le_trans hacc.2 h1
    · exact h2 p hp

theorem idxmax_spec (ps : List (ℤ × ℚ)) (y : ℤ) (v : ℚ)
    (h : idxmax ps = some (y, v)) : (y, v) ∈ ps ∧ ∀ p ∈ ps, p.2 ≤ v := by
  match ps with
  | [] => cases h
  | p :: l =>
    have hr : l.foldl (fun best q => if best.2 < q.2 then q else best) p = (y, v) := by
      simpa [idxmax] using h
    constructor
    · rcases foldl_max_choice l p with hc | hc
      · rw [hr] at hc
        rw [← hc]
        exact List.mem_cons_self _ _
      · rw [hr] at hc
        exact List.mem_cons_of_mem p hc
    · intro q hq
      obtain ⟨h1, h2⟩ := foldl_max_ge l p
      rw [hr] at h1 h2
      rcases List.mem_cons.mp hq with rfl | hq
      · exact h1
      · exact h2 q hq

set_option maxRecDepth 100000 in
/-- Claim C9 (counterexample): in the IEEE binary64 arithmetic the
program uses, the series [1,1,1,1,20] over 2019–2023 has standard
deviation 7.6000000000000005 (the exact value 7.6 rounds up) and maximal
z-score (2⁵³−1)/2⁵² = 1.9999999999999998, strictly below the threshold 2
— so `spike_year` reports no spike, not 2023 as the claim asserts. -/
theorem spike_threshold_float_below_two :
    spike_year [(2019, 1), (2020, 1), (2021, 1), (2022, 1), (2023, 20)] = none ∧
    fDiv (fSub 20 (fmean [1, 1, 1, 1, 20])) (fstd [1, 1, 1, 1, 20]) =
      (2 ^ 53 - 1) / 2 ^ 52 :=
  ⟨by decide, by decide⟩

set_option maxRecDepth 100000 in
/-- Claim C9 (amended): `spike_year` reports no spike on a series whose
standard deviation is zero; whenever it reports a year, the variance is
non-zero and that year carries the first maximal binary64 z-score of the
series, with that z-score at least 2 — and conversely; but the threshold
test runs in IEEE doubles, so the series [1,1,1,1,20] reports no spike
(its maximal z-score evaluates to 1.9999999999999998, the exact value 2
rounded down by the float pipeline), and the linear series [1,2,3,4,5]
reports no spike. -/
theorem spike_year_spec :
    (∀ ps : List (ℤ × ℚ), fstd (ps.map Prod.snd) = 0 → spike_year ps = none) ∧
    spike_year [(2019, 1), (2020, 1), (2021, 1), (2022, 1), (2023, 20)] = none ∧
    spike_year [(2019, 1), (2020, 2), (2021, 3), (2022, 4), (2023, 5)] = none ∧
    (∀ (ps : List (ℤ × ℚ)) (y : ℤ), spike_year ps = some y →
      fstd (ps.map Prod.snd) ≠ 0 ∧
      ∃ z, (y, z) ∈ zscores ps ∧ (∀ q ∈ zscores ps, q.2 ≤ z) ∧ 2 ≤ z) ∧
    (∀ (ps : List (ℤ × ℚ)) (y : ℤ) (z : ℚ),
      fstd (ps.map Prod.snd) ≠ 0 → idxmax (zscores ps) = some (y, z) →
      2 ≤ z → spike_year ps = some y) := by
  refine ⟨?_, by decide, by decide, ?_, ?_⟩
  · intro ps h
    unfold spike_year
    rw [if_pos h]
  · intro ps y h
    unfold spike_year at h
    by_cases hv : fstd (ps.map Prod.snd) = 0
    · rw [if_pos hv] at h
      cases h
    · rw [if_neg hv] at h
      refine ⟨hv, ?_⟩
      cases hm : idxmax (zscores ps) with
      | none => rw [hm] at h; cases h
      | some p =>
        obtain ⟨y2, z⟩ := p
        rw [hm] at h
        simp only at h
        by_cases hc : (2 : ℚ) ≤ z
        · rw [if_pos hc] at h
          have hy : y2 = y := Option.some.inj h
          obtain ⟨hmem, hle⟩ := idxmax_spec (zscores ps) y2 z hm
          exact ⟨z, hy ▸ hmem, hle, hc⟩
        · rw [if_neg hc] at h
          cases h
  · intro ps y z hv hm hc
    unfold spike_year
    rw [if_neg hv, hm]
    dsimp only
    rw [if_pos hc]

/-- Witness for `spike_year_spec`: the zero-variance clause at the
constant series [(2019, 3), (2020, 3)] (whose float standard deviation is
exactly zero). -/
theorem spike_year_spec_witness :
    spike_year [((2019 : ℤ), (3 : ℚ)), (2020, 3)] = none :=
  spike_year_spec.1 _ (by decide)

/-- Witness for `slope_pct_spec`: the constant-series clause at the
constant value 7, and the strictly increasing clause at the series
[(2019, 1), (2020, 2)]. -/
theorem slope_pct_spec_witness :
    slope_pct [((2019 : ℤ), (7 : ℚ)), (2020, 7)] = 0 ∧
    0 < ols_slope [((2019 : ℤ), (1 : ℚ)), (2020, 2)] ∧
    0 ≤ slope_pct [((2019 : ℤ), (1 : ℚ)), (2020, 2)] :=
  ⟨slope_pct_spec.2.1 _ 7 (by decide),
   (slope_pct_spec.2.2 _ (by decide) (by decide) (by decide)).1,
   (slope_pct_spec.2.2 _ (by decide) (by decide) (by decide)).2⟩

theorem sliceEvals_none (acc : String) (l : List EvalRow) :
    sliceEvals none acc l = [] := by
  rw [sliceEvals, List.filter_eq_nil_iff]
  intro r _
  simp [matchesKey]

theorem sliceViols_none (acc : String) (l : List ViolRow) :
    sliceViols none acc l = [] := by
  rw [sliceViols, List.filter_eq_nil_iff]
  intro r _
  simp [matchesKey]

theorem sliceEnfs_none (acc : String) (l : List EnfRow) :
    sliceEnfs none acc l = [] := by
  rw [sliceEnfs, List.filter_eq_nil_iff]
  intro r _
  simp [matchesKey]

/-- Claim C2 (code evaluation): the account-level pass calls
`build_metrics(None, acc)`, whose slice filter `contact_email == @email`
compares the never-null `contact_email` strings against `None` and so
matches no row; all three event slices are therefore empty for every
account and every account-level call returns the empty dict — the
account-level table contains no metric row at all, for any data.  By
contrast the contact-level call on the same data returns a populated
row. -/
theorem account_level_rows_empty :
    (∀ (evals : List EvalRow) (viols : List ViolRow) (enfs : List EnfRow)
       (facs : List FacRow) (acc : String),
       build_metrics evals viols enfs facs none acc = none) ∧
    (∀ (evals : List EvalRow) (viols : List ViolRow) (enfs : List EnfRow)
       (facs : List FacRow),
       account_rows evals viols enfs facs =
         (account_ids evals).map (fun _ => none)) ∧
    build_metrics [evalA1] [] [] [] (some "c@x.com") "A1" ≠ none := by
  have h1 : ∀ (evals : List EvalRow) (viols : List ViolRow) (enfs : List EnfRow)
      (facs : List FacRow) (acc : String),
      build_metrics evals viols enfs facs none acc = none := by
    intro evals viols enfs facs acc
    unfold build_metrics
    rw [sliceEvals_none, sliceViols_none, sliceEnfs_none]
  refine ⟨h1, ?_, by decide⟩
  intro evals viols enfs facs
  unfold account_rows
  have hfun : (fun acc => (build_metrics evals viols enfs facs none acc).map
      (fun m => { m with contact_email := none })) =
      (fun _ : String => (none : Option MetricRow)) := by
    funext acc
    rw [h1]
    rfl
  rw [hfun]

/-- Claim C7: a violation row with no determination date is excluded from
the window entirely (so the determination-date half of the claim is
vacuous); an in-window violation row with no return-to-compliance
date gets a null `days_to_resolve` (not zero); a null-duration row adds
one to `open_violations` and leaves `avg_days_to_resolve` unchanged
(it is excluded from the mean); the average is null exactly when no
non-null duration exists; and on a concrete single open violation,
`build_metrics` reports `open_violations = 1` and a null average. -/
theorem null_duration_propagation :
    (∀ (wb we : String) (r : ViolSource), r.determined_date = none →
       q_viol_row wb we r = none) ∧
    (∀ (wb we : String) (r : ViolSource) (row : ViolRow),
       r.actual_rtc_date = none → q_viol_row wb we r = some row →
       row.days_to_resolve = none) ∧
    (∀ (v : ViolRow) (vs : List ViolRow), v.days_to_resolve = none →
       openCount (v :: vs) = openCount vs + 1 ∧ avgDays (v :: vs) = avgDays vs) ∧
    (∀ vs : List ViolRow,
       avgDays vs = none ↔ vs.filterMap (·.days_to_resolve) = []) ∧
    q_viol_row "20200101" "20241231" srcOpen = some vOpen ∧
    (build_metrics [] [vOpen] [] [] (some "c@x.com") "A1").map
      (·.open_violations) = some 1 ∧
    (build_metrics [] [vOpen] [] [] (some "c@x.com") "A1").map
      (·.avg_days_to_resolve) = some none := by
  refine ⟨?_, ?_, ?_, ?_, by decide, by decide, by decide⟩
  · intro wb we r hdd
    unfold q_viol_row
    rw [hdd]
  · intro wb we r row hrtc h
    unfold q_viol_row at h
    cases hdd : r.determined_date with
    | none => rw [hdd] at h; cases h
    | some dd =>
      rw [hdd] at h
      dsimp only at h
      by_cases hw : inWindow (some dd) wb we = true
      · rw [if_pos hw] at h
        cases h
        simp [hrtc]
      · rw [if_neg hw] at h
        cases h
  · intro v vs hnone
    constructor
    · rw [openCount, openCount, List.filter_cons_of_pos]
      · rfl
      · simp [hnone]
    · rw [avgDays, avgDays, List.filterMap_cons_none]
      simp [hnone]
  · intro vs
    cases hd : vs.filterMap (·.days_to_resolve) with
    | nil =>
      rw [avgDays, hd]
      simp
    | cons a as =>
      rw [avgDays, hd]
      simp

/-- Witness for `null_duration_propagation`: the null-duration clause
evaluated at the concrete open violation over the empty tail. -/
theorem null_duration_propagation_witness :
    openCount [vOpen] = openCount [] + 1 ∧ avgDays [vOpen] = avgDays [] :=
  null_duration_propagation.2.2.1 vOpen [] rfl

/-- Claim C8: when both the determination date and the actual
return-to-compliance date are present, the in-window row's
`days_to_resolve` is `DATE_DIFF('day', rtc, determined)` — the
determination date minus the return-to-compliance date in days — so a
violation returned to compliance after its determination date gets a
negative duration; concretely, determination 2023-01-10 with return
2023-01-15 gives −5, and that −5 flows into `avg_days_to_resolve`. -/
theorem days_to_resolve_orientation :
    (∀ (wb we : String) (r : ViolSource) (row : ViolRow) (dd rtc : String),
       r.determined_date = some dd → r.actual_rtc_date = some rtc →
       q_viol_row wb we r = some row →
       row.days_to_resolve = some (dateDiffDays rtc dd)) ∧
    (∀ (wb we : String) (r : ViolSource) (row : ViolRow) (dd rtc : String),
       r.determined_date = some dd → r.actual_rtc_date = some rtc →
       q_viol_row wb we r = some row → dateOrd dd < dateOrd rtc →
       ∃ k, row.days_to_resolve = some k ∧ k < 0) ∧
    q_viol_row "20200101" "20241231" srcNeg = some vNeg ∧
    (build_metrics [] [vNeg] [] [] (some "c@x.com") "A1").map
      (·.avg_days_to_resolve) = some (some (-5)) := by
  have h1 : ∀ (wb we : String) (r : ViolSource) (row : ViolRow) (dd rtc : String),
      r.determined_date = some dd → r.actual_rtc_date = some rtc →
      q_viol_row wb we r = some row →
      row.days_to_resolve = some (dateDiffDays rtc dd) := by
    intro wb we r row dd rtc hdd hrtc h
    unfold q_viol_row at h
    rw [hdd] at h
    dsimp only at h
    by_cases hw : inWindow (some dd) wb we = true
    · rw [if_pos hw] at h
      cases h
      simp [hrtc]
    · rw [if_neg hw] at h
      cases h
  refine ⟨h1, ?_, by decide, by decide⟩
  intro wb we r row dd rtc hdd hrtc h hlt
  refine ⟨dateDiffDays rtc dd, h1 wb we r row dd rtc hdd hrtc h, ?_⟩
  unfold dateDiffDays
  omega

/-- Witness for `days_to_resolve_orientation`: the duration clause
evaluated at the concrete negative-duration violation. -/
theorem days_to_resolve_orientation_witness :
    vNeg.days_to_resolve = some (dateDiffDays "20230115" "20230110") :=
  days_to_resolve_orientation.1 "20200101" "20241231" srcNeg vNeg
    "20230110" "20230115" rfl rfl (by decide)

end RatEval

end Binrun
